import Mathlib

/-!
Verification development for the rrweb session-recorder script
(`rrweb-recorder.js`).  The script wraps browser console, `fetch`, XHR,
and history APIs, serializes payloads with a bounded serializer, and
accumulates tagged events in an in-memory session buffer that can be
dumped and exported as JSON.

The embedding models:
  * JSON documents (`JVal`) with the renderer used by the export path
    (`JSON.stringify(session, null, 2)`) and a parser modelling
    `JSON.parse` on the grammar the recorder emits (integer-valued
    numbers; the full string/array/object grammar with escapes and
    whitespace);
  * the JavaScript value universe the recorder manipulates (`JSVal`),
    including truthiness, `String(...)` coercion and `JSON.stringify`
    behaviour (raising on circular objects, yielding no string on
    `undefined`);
  * `serializeData`, the console wrapper, the `fetch` wrapper, the
    XHR `send` wrapper with its event-listener wiring, the history
    wrappers, and the session-buffer control surface.
-/

namespace RR

/-! ## JSON documents -/

/-- A JSON value.  Numbers are integers: every number the recorder puts in
an event (timestamps, durations, status codes, the custom-event type tag)
is an integer. -/
inductive JVal where
  | jnull
  | jbool (b : Bool)
  | jnum (i : Int)
  | jstr (s : String)
  | jarr (elems : List JVal)
  | jobj (fields : List (String × JVal))

/-- Keys of a JSON object (empty for non-objects). -/
def JVal.keys : JVal → List String
  | .jobj fs => fs.map Prod.fst
  | _ => []

/-- Whitespace characters as `JSON.parse` treats them. -/
def jIsWs (c : Char) : Bool :=
  c.toNat == 32 || c.toNat == 9 || c.toNat == 10 || c.toNat == 13

/-- Drop leading JSON whitespace. -/
def jDropWs : List Char → List Char
  | [] => []
  | c :: cs => if jIsWs c then jDropWs cs else c :: cs

/-- Decimal digit test. -/
def jIsDigit (c : Char) : Bool := 48 ≤ c.toNat && c.toNat ≤ 57

/-- The character for a decimal digit value. -/
def digitChar10 (d : Nat) : Char := Char.ofNat (48 + d)

/-- Lower-case hex digit character. -/
def hexChar16 (d : Nat) : Char :=
  if d < 10 then Char.ofNat (48 + d) else Char.ofNat (97 + (d - 10))

/-- Decimal digit characters of a natural number, most significant first. -/
def jNatL (n : Nat) : List Char :=
  if n = 0 then ['0'] else (Nat.digits 10 n).reverse.map digitChar10

/-- Characters of an integer as `JSON.stringify` renders it. -/
def jIntL (i : Int) : List Char :=
  if i < 0 then '-' :: jNatL i.natAbs else jNatL i.natAbs

/-- One string character, escaped as `JSON.stringify` escapes it: quote and
backslash get a backslash, the common control characters use their short
escapes, other control characters become a `\u00XX` escape, and everything
else is passed through. -/
def jEscChar (c : Char) : List Char :=
  if c = '"' then ['\\', '"']
  else if c = '\\' then ['\\', '\\']
  else if c = '\n' then ['\\', 'n']
  else if c = '\r' then ['\\', 'r']
  else if c = '\t' then ['\\', 't']
  else if c = Char.ofNat 8 then ['\\', 'b']
  else if c = Char.ofNat 12 then ['\\', 'f']
  else if c.toNat < 32 then
    ['\\', 'u', '0', '0', hexChar16 (c.toNat / 16), hexChar16 (c.toNat % 16)]
  else [c]

/-- A JSON string literal: quoted, with every character escaped. -/
def jStrL (s : String) : List Char :=
  '"' :: (s.data.flatMap jEscChar ++ ['"'])

/-- The line break plus indentation `JSON.stringify(x, null, step)` writes
before an element at nesting level `lvl`; nothing in compact mode. -/
def wsRunL (ind : Option Nat) (lvl : Nat) : List Char :=
  match ind with
  | none => []
  | some step => '\n' :: List.replicate (lvl * step) ' '

/-- The gap after a key's colon: one space when indenting, none compact. -/
def colGapL (ind : Option Nat) : List Char :=
  match ind with
  | none => []
  | some _ => [' ']

mutual
/-- Render a JSON value to characters.  `ind = some step` reproduces
`JSON.stringify(v, null, step)`'s layout; `ind = none` is the compact
`JSON.stringify(v)`.  `lvl` is the current nesting level. -/
def jPrint (ind : Option Nat) (lvl : Nat) (v : JVal) : List Char :=
  match v with
  | .jnull => ['n', 'u', 'l', 'l']
  | .jbool true => ['t', 'r', 'u', 'e']
  | .jbool false => ['f', 'a', 'l', 's', 'e']
  | .jnum i => jIntL i
  | .jstr s => jStrL s
  | .jarr [] => ['[', ']']
  | .jarr (e :: es) =>
      '[' :: (wsRunL ind (lvl + 1) ++ jPrintItems ind (lvl + 1) e es
              ++ wsRunL ind lvl ++ [']'])
  | .jobj [] => ['{', '}']
  | .jobj (f :: fs) =>
      '{' :: (wsRunL ind (lvl + 1) ++ jPrintFields ind (lvl + 1) f fs
              ++ wsRunL ind lvl ++ ['}'])
termination_by sizeOf v
decreasing_by all_goals (simp_wf; try omega)

/-- Render a nonempty array's elements, comma-separated. -/
def jPrintItems (ind : Option Nat) (lvl : Nat) (e : JVal) (es : List JVal) :
    List Char :=
  match es with
  | [] => jPrint ind lvl e
  | x :: xs => jPrint ind lvl e ++ ',' :: (wsRunL ind lvl ++ jPrintItems ind lvl x xs)
termination_by sizeOf e + sizeOf es
decreasing_by all_goals (simp_wf; try omega)

/-- Render a nonempty object's fields, comma-separated. -/
def jPrintFields (ind : Option Nat) (lvl : Nat) (f : String × JVal)
    (fs : List (String × JVal)) : List Char :=
  match f, fs with
  | (k, w), [] => jStrL k ++ ':' :: (colGapL ind ++ jPrint ind lvl w)
  | (k, w), x :: xs =>
      jStrL k ++ ':' :: (colGapL ind ++ jPrint ind lvl w)
        ++ ',' :: (wsRunL ind lvl ++ jPrintFields ind lvl x xs)
termination_by sizeOf f + sizeOf fs
decreasing_by all_goals (simp_wf; try omega)
end

/-- A rendered JSON document as a string. -/
def jStringify (ind : Option Nat) (v : JVal) : String := ⟨jPrint ind 0 v⟩

/-- Undo a short escape character. -/
def jUnesc (c : Char) : Option Char :=
  if c = '"' then some '"'
  else if c = '\\' then some '\\'
  else if c = '/' then some '/'
  else if c = 'n' then some '\n'
  else if c = 'r' then some '\r'
  else if c = 't' then some '\t'
  else if c = 'b' then some (Char.ofNat 8)
  else if c = 'f' then some (Char.ofNat 12)
  else none

/-- Hex digit value of a character. -/
def hexNib (c : Char) : Option Nat :=
  if 48 ≤ c.toNat && c.toNat ≤ 57 then some (c.toNat - 48)
  else if 97 ≤ c.toNat && c.toNat ≤ 102 then some (c.toNat - 87)
  else if 65 ≤ c.toNat && c.toNat ≤ 70 then some (c.toNat - 55)
  else none

/-- Parse the body of a JSON string literal (after the opening quote),
accumulating decoded characters in reverse. -/
def jParseStr (acc : List Char) : List Char → Option (String × List Char)
  | '"' :: r => some (⟨acc.reverse⟩, r)
  | '\\' :: 'u' :: a :: b :: c :: d :: r =>
      match hexNib a, hexNib b, hexNib c, hexNib d with
      | some va, some vb, some vc, some vd =>
          jParseStr (Char.ofNat (((va * 16 + vb) * 16 + vc) * 16 + vd) :: acc) r
      | _, _, _, _ => none
  | '\\' :: e :: r =>
      match jUnesc e with
      | some c => jParseStr (c :: acc) r
      | none => none
  | c :: r => jParseStr (c :: acc) r
  | [] => none

/-- Split off a leading run of decimal digits. -/
def jTakeDigits : List Char → List Char × List Char
  | c :: cs =>
      if jIsDigit c then
        let (ds, r) := jTakeDigits cs
        (c :: ds, r)
      else ([], c :: cs)
  | [] => ([], [])

/-- Numeric value of a big-endian digit-character run. -/
def jDigitsVal (ds : List Char) : Nat :=
  ds.foldl (fun a c => a * 10 + (c.toNat - 48)) 0

/-- Parse an integer JSON number (the only numbers the recorder emits). -/
def jParseNum (cs : List Char) : Option (Int × List Char) :=
  match cs with
  | '-' :: r =>
      match jTakeDigits r with
      | ([], _) => none
      | (ds, rest) => some (-(jDigitsVal ds : Int), rest)
  | _ =>
      match jTakeDigits cs with
      | ([], _) => none
      | (ds, rest) => some ((jDigitsVal ds : Int), rest)

mutual
/-- Parse one JSON value.  Fuel-indexed so totality is structural; the
top-level wrapper supplies more fuel than the input length. -/
def jParseVal : Nat → List Char → Option (JVal × List Char)
  | 0, _ => none
  | fuel + 1, cs =>
      match jDropWs cs with
      | 'n' :: 'u' :: 'l' :: 'l' :: r => some (.jnull, r)
      | 't' :: 'r' :: 'u' :: 'e' :: r => some (.jbool true, r)
      | 'f' :: 'a' :: 'l' :: 's' :: 'e' :: r => some (.jbool false, r)
      | '"' :: r =>
          match jParseStr [] r with
          | some (s, r') => some (.jstr s, r')
          | none => none
      | '[' :: r =>
          match jDropWs r with
          | ']' :: r' => some (.jarr [], r')
          | other =>
              match jParseItems fuel other with
              | some (es, r') => some (.jarr es, r')
              | none => none
      | '{' :: r =>
          match jDropWs r with
          | '}' :: r' => some (.jobj [], r')
          | other =>
              match jParseFields fuel other with
              | some (fs, r') => some (.jobj fs, r')
              | none => none
      | c :: r =>
          if c = '-' || jIsDigit c then
            match jParseNum (c :: r) with
            | some (i, r') => some (.jnum i, r')
            | none => none
          else none
      | [] => none

/-- Parse one or more comma-separated array elements up to `]`. -/
def jParseItems : Nat → List Char → Option (List JVal × List Char)
  | 0, _ => none
  | fuel + 1, cs =>
      match jParseVal fuel cs with
      | none => none
      | some (v, r) =>
          match jDropWs r with
          | ',' :: r' =>
              match jParseItems fuel (jDropWs r') with
              | some (vs, r'') => some (v :: vs, r'')
              | none => none
          | ']' :: r' => some ([v], r')
          | _ => none

/-- Parse one or more comma-separated object fields up to `}`. -/
def jParseFields : Nat → List Char → Option (List (String × JVal) × List Char)
  | 0, _ => none
  | fuel + 1, cs =>
      match jDropWs cs with
      | '"' :: r =>
          match jParseStr [] r with
          | none => none
          | some (k, r1) =>
              match jDropWs r1 with
              | ':' :: r2 =>
                  match jParseVal fuel (jDropWs r2) with
                  | none => none
                  | some (v, r3) =>
                      match jDropWs r3 with
                      | ',' :: r4 =>
                          match jParseFields fuel (jDropWs r4) with
                          | some (fs, r5) => some ((k, v) :: fs, r5)
                          | none => none
                      | '}' :: r4 => some ([(k, v)], r4)
                      | _ => none
              | _ => none
      | _ => none
end

/-- Parse a complete JSON document, as `JSON.parse` does on the grammar the
recorder's export emits: exactly one value, optionally surrounded by
whitespace. -/
def jParse (s : String) : Option JVal :=
  match jParseVal (s.data.length + 1) s.data with
  | some (v, r) => if (jDropWs r).isEmpty then some v else none
  | none => none

/-! ## The JavaScript value universe

The recorder manipulates ordinary JavaScript values.  `JSVal` models the
kinds the script distinguishes: the falsy primitives, strings, numbers
(including `NaN`), `Error` instances, `FormData`, binary buffers, `Blob`,
and plain objects.  A plain object carries its JSON tree when
`JSON.stringify` succeeds on it, and `none` when stringification raises
(circular references and the like).  Values with a custom throwing
`toString` are outside this universe: `String(v)` is total on it, as the
recorder's fallback path assumes. -/

/-- A JavaScript number: an integer, or `NaN`. -/
inductive JSNum where
  | int (i : Int)
  | nan

/-- A `FormData` entry value: a string field, or a file/binary field. -/
inductive FormVal where
  | fstr (s : String)
  | ffile

/-- A JavaScript value, as the recorder distinguishes them. -/
inductive JSVal where
  | vNull
  | vUndefined
  | vBool (b : Bool)
  | vNum (n : JSNum)
  | vStr (s : String)
  | vErr (name message stack : String)
  | vFormData (entries : List (String × FormVal))
  | vArrayBuffer (byteLength : Nat)
  | vUint8Array (bytes : List Nat)
  | vBlob (size : Nat)
  | vObj (tree : Option JVal)

/-- JavaScript truthiness: `null`, `undefined`, `false`, `0`, `NaN` and the
empty string are falsy; every other value here is truthy. -/
def truthy : JSVal → Bool
  | .vNull => false
  | .vUndefined => false
  | .vBool b => b
  | .vNum (.int i) => i != 0
  | .vNum .nan => false
  | .vStr s => s != ""
  | _ => true

/-- Generic string coercion, `String(v)`. -/
def jsToString : JSVal → String
  | .vNull => "null"
  | .vUndefined => "undefined"
  | .vBool b => if b then "true" else "false"
  | .vNum (.int i) => ⟨jIntL i⟩
  | .vNum .nan => "NaN"
  | .vErr n m _ => if m = "" then n else if n = "" then m else n ++ ": " ++ m
  | .vStr s => s
  | .vFormData _ => "[object FormData]"
  | .vArrayBuffer _ => "[object ArrayBuffer]"
  | .vUint8Array bs => String.intercalate "," (bs.map (fun b => ⟨jNatL b⟩))
  | .vBlob _ => "[object Blob]"
  | .vObj _ => "[object Object]"

/-- The three ways `JSON.stringify(v)` can go: a JSON tree, the undefined
result (for `undefined` itself), or an exception. -/
inductive JsonRes where
  | val (v : JVal)
  | undef
  | raises

/-- The index-keyed fields `JSON.stringify` produces for a `Uint8Array`. -/
def uint8Fields : Nat → List Nat → List (String × JVal)
  | _, [] => []
  | i, b :: bs => (⟨jNatL i⟩, JVal.jnum b) :: uint8Fields (i + 1) bs

/-- The outcome of `JSON.stringify(v)` on each value kind: `NaN` encodes as
`null`; `Error`, `FormData`, `ArrayBuffer` and `Blob` have no enumerable
own properties and encode as an empty object; a circular plain object
raises. -/
def jsonValueOf : JSVal → JsonRes
  | .vNull => .val .jnull
  | .vUndefined => .undef
  | .vBool b => .val (.jbool b)
  | .vNum (.int i) => .val (.jnum i)
  | .vNum .nan => .val .jnull
  | .vStr s => .val (.jstr s)
  | .vErr _ _ _ => .val (.jobj [])
  | .vFormData _ => .val (.jobj [])
  | .vArrayBuffer _ => .val (.jobj [])
  | .vUint8Array bs => .val (.jobj (uint8Fields 0 bs))
  | .vBlob _ => .val (.jobj [])
  | .vObj (some t) => .val t
  | .vObj none => .raises

/-- JavaScript `s.slice(0, n)` for a nonnegative bound. -/
def jsSlice (s : String) (n : Nat) : String := ⟨s.data.take n⟩

/-- Does `p` start `l`? -/
def startsWithL : List Char → List Char → Bool
  | [], _ => true
  | _ :: _, [] => false
  | a :: p, b :: l => a == b && startsWithL p l

/-- Does `p` occur in `l`?  (`String.prototype.includes`.) -/
def containsL (p : List Char) : List Char → Bool
  | [] => p.isEmpty
  | c :: l => startsWithL p (c :: l) || containsL p l

/-- JavaScript `s.includes(pat)`. -/
def jsIncludes (s pat : String) : Bool := containsL pat.data s.data

/-- JavaScript `a || dflt` on an optional string (absent and empty are
falsy). -/
def jsOrStr (v : Option String) (dflt : String) : String :=
  match v with
  | some s => if s = "" then dflt else s
  | none => dflt

/-- Property assignment `o[k] = v` on a plain object: an existing key keeps
its position and gets the new value, a fresh key is appended. -/
def objAssign (fs : List (String × JVal)) (k : String) (v : JVal) :
    List (String × JVal) :=
  if fs.any (fun kv => kv.1 == k) then
    fs.map (fun kv => if kv.1 == k then (k, v) else kv)
  else fs ++ [(k, v)]

/-- The key-to-value object `serializeData` builds from `FormData` entries:
string fields verbatim, file fields as a placeholder. -/
def formDataObj (entries : List (String × FormVal)) : List (String × JVal) :=
  entries.foldl
    (fun fs kv =>
      objAssign fs kv.1 (.jstr (match kv.2 with | .fstr s => s | .ffile => "[File]")))
    []

/-- The binary placeholder `serializeData` produces for buffer inputs. -/
def binPlaceholder (n : Nat) : String :=
  "[Binary data: " ++ (⟨jNatL n⟩ : String) ++ " bytes]"

/-- The bounded serializer `serializeData(data, maxSize)`.  Falsy input gives
the empty string; strings are sliced; `FormData` becomes a JSON-encoded
key map; binary buffers become a byte-count placeholder; everything else is
JSON-encoded and sliced.  When `JSON.stringify` raises (circular object) or
yields no string (so the subsequent `.slice` raises), the catch falls back
to `String(data).slice(0, maxSize)`. -/
def serializeData (data : JSVal) (maxSize : Nat) : String :=
  if truthy data = false then ""
  else
    match data with
    | .vStr s => jsSlice s maxSize
    | .vFormData entries =>
        jsSlice (jStringify none (.jobj (formDataObj entries))) maxSize
    | .vArrayBuffer n => binPlaceholder n
    | .vUint8Array bs => binPlaceholder bs.length
    | d =>
        match jsonValueOf d with
        | .val j => jsSlice (jStringify none j) maxSize
        | .undef => jsSlice (jsToString d) maxSize
        | .raises => jsSlice (jsToString d) maxSize

/-! ## Console interceptor

`consoleWrapped` is the observable trace of one call to a wrapped console
method: the original method is invoked first with the original arguments,
then the capture block runs inside a `try`.  Message building is total (its
inner encoding failures are caught argument by argument), so the only
capture fault left is the event sink (`addCustomEvent`) raising, modelled
by the `sinkRaises` oracle; the catch reports through the original
(unwrapped) error logger. -/

/-- A step in the observable trace of one wrapped console call. -/
inductive ConsoleStep where
  | callOriginal (level : String) (args : List JSVal)
  | emitConsole (level message : String) (args : List (Option String))
      (timestamp : Int) (url : String)
  | reportViaOriginalError

/-- Render one argument for the joined `message`: strings verbatim, `Error`s
as `name: message\stack` (with a newline), otherwise pretty-printed JSON,
falling back to `String(arg)` when encoding raises.  `none` is the
`undefined` a bare `JSON.stringify` miss produces, which `join` renders as
the empty string. -/
def renderMsgArg (a : JSVal) : Option String :=
  match a with
  | .vStr s => some s
  | .vErr n m stk => some (n ++ ": " ++ m ++ "\n" ++ stk)
  | _ =>
      match jsonValueOf a with
      | .val j => some (jStringify (some 2) j)
      | .undef => none
      | .raises => some (jsToString a)

/-- JavaScript `parts.join(sep)`: `undefined` entries render empty. -/
def jsJoin (sep : String) (parts : List (Option String)) : String :=
  String.intercalate sep (parts.map (fun p => p.getD ""))

/-- The `message` field: each argument rendered, joined with one space. -/
def buildConsoleMessage (args : List JSVal) : String :=
  jsJoin " " (args.map renderMsgArg)

/-- One entry of the `args` field: string passthrough or compact JSON,
falling back to string coercion on encoding failure. -/
def renderArgEntry (a : JSVal) : Option String :=
  match a with
  | .vStr s => some s
  | _ =>
      match jsonValueOf a with
      | .val j => some (jStringify none j)
      | .undef => none
      | .raises => some (jsToString a)

/-- The trace of one call to a wrapped console method. -/
def consoleWrapped (level : String) (args : List JSVal) (href : String)
    (now : Int) (sinkRaises : Bool) : List ConsoleStep :=
  ConsoleStep.callOriginal level args ::
    (if sinkRaises then [ConsoleStep.reportViaOriginalError]
     else [ConsoleStep.emitConsole level (buildConsoleMessage args)
             (args.map renderArgEntry) now href])

/-- The five console methods the recorder wraps. -/
def consoleLevels : List String := ["log", "error", "warn", "info", "debug"]

/-- Is a trace step the delegation to the original console method? -/
def ConsoleStep.isCallOriginal : ConsoleStep → Bool
  | .callOriginal _ _ => true
  | _ => false

/-! ## Network events -/

/-- A network custom event, with the payload fields each phase carries in
the source (`fetch` and XHR end/error events differ in their header and
stack fields). -/
inductive NetEvent where
  | start (id api url method : String) (headers : List (String × String))
      (requestBody : String) (timestamp : Int)
  | endFetch (id : String) (status : Nat) (statusText : String) (ok : Bool)
      (headers : List (String × String)) (responseBody responseType : String)
      (duration timestamp : Int)
  | endXhr (id : String) (status : Nat) (statusText : String) (ok : Bool)
      (responseHeaders : String) (responseBody responseType : String)
      (duration timestamp : Int)
  | errFetch (id message stack : String) (duration timestamp : Int)
  | errXhr (id message : String) (duration timestamp : Int)

/-- The correlation id of an event. -/
def NetEvent.evId : NetEvent → String
  | .start i _ _ _ _ _ _ => i
  | .endFetch i _ _ _ _ _ _ _ _ => i
  | .endXhr i _ _ _ _ _ _ _ _ => i
  | .errFetch i _ _ _ _ => i
  | .errXhr i _ _ _ => i

/-- Is this a `start`-phase event? -/
def NetEvent.isStart : NetEvent → Bool
  | .start _ _ _ _ _ _ _ => true
  | _ => false

/-- Is this an `end`-phase event? -/
def NetEvent.isEnd : NetEvent → Bool
  | .endFetch _ _ _ _ _ _ _ _ _ => true
  | .endXhr _ _ _ _ _ _ _ _ _ => true
  | _ => false

/-- Is this an `error`-phase event? -/
def NetEvent.isErr : NetEvent → Bool
  | .errFetch _ _ _ _ _ => true
  | .errXhr _ _ _ _ => true
  | _ => false

/-- Is this a terminal (end or error) event? -/
def NetEvent.isTerminal (e : NetEvent) : Bool := e.isEnd || e.isErr

/-- The timestamp field of an event. -/
def NetEvent.ts : NetEvent → Int
  | .start _ _ _ _ _ _ t => t
  | .endFetch _ _ _ _ _ _ _ _ t => t
  | .endXhr _ _ _ _ _ _ _ _ t => t
  | .errFetch _ _ _ _ t => t
  | .errXhr _ _ _ t => t

/-- The duration field of a terminal event (0 for a start event, which
carries none). -/
def NetEvent.durationVal : NetEvent → Int
  | .start _ _ _ _ _ _ _ => 0
  | .endFetch _ _ _ _ _ _ _ d _ => d
  | .endXhr _ _ _ _ _ _ _ d _ => d
  | .errFetch _ _ _ d _ => d
  | .errXhr _ _ d _ => d

/-- The `ok` field of an end event. -/
def NetEvent.okField : NetEvent → Option Bool
  | .endFetch _ _ _ o _ _ _ _ _ => some o
  | .endXhr _ _ _ o _ _ _ _ _ => some o
  | _ => none

/-! ## Fetch interceptor -/

/-- An error value as the fetch path reads it (`err.message`, `err.stack`). -/
structure JSErr where
  message : String
  stack : String

/-- A fetch `Response` as the wrapper consumes it.  `headers` holds the
(lower-cased) header entries; `body` is the text its body yields;
`textRaises = some m` means reading the (cloned) body's text rejects with
an error carrying message `m`; `bodyUsed` is the body-consumption flag. -/
structure Response where
  status : Nat
  statusText : String
  headers : List (String × String)
  body : String
  textRaises : Option String
  bodyUsed : Bool

/-- The native `ok` flag of a `Response`: status in the 2xx range. -/
def Response.okFlag (r : Response) : Bool :=
  decide (200 ≤ r.status ∧ r.status < 300)

/-- `res.clone()`: a fresh copy whose body is unconsumed. -/
def Response.cloneR (r : Response) : Response :=
  ⟨r.status, r.statusText, r.headers, r.body, r.textRaises, false⟩

/-- `headers.get(k)` (over already-normalized lower-case names). -/
def headersGet (hs : List (String × String)) (k : String) : Option String :=
  (hs.find? (fun kv => kv.1 == k)).map Prod.snd

/-- The fetch wrapper's response classification: `content-type` containing
`application/json` or `text/` reads the clone's text; image, video and
audio types substitute a placeholder without reading bytes; anything else
reads text with the default `text` type.  A failed read becomes an
explanatory placeholder (the `responseType` keeps its value from before
the raise, i.e. the initial `"text"`). -/
def fetchReadBody (r : Response) : String × String :=
  let ct := jsOrStr (headersGet r.headers "content-type") ""
  if jsIncludes ct "application/json" then
    match r.textRaises with
    | none => (r.body, "json")
    | some m => ("[Error reading response: " ++ m ++ "]", "text")
  else if jsIncludes ct "text/" then
    match r.textRaises with
    | none => (r.body, "text")
    | some m => ("[Error reading response: " ++ m ++ "]", "text")
  else if jsIncludes ct "image/" || jsIncludes ct "video/"
      || jsIncludes ct "audio/" then
    ("[" ++ ct ++ " - " ++ jsOrStr (headersGet r.headers "content-length") "unknown"
       ++ " bytes]", "binary")
  else
    match r.textRaises with
    | none => (r.body, "text")
    | some m => ("[Error reading response: " ++ m ++ "]", "text")

/-- The arguments of one `fetch(resource, init)` call, as the wrapper reads
them. -/
structure FetchCall where
  resource : String
  method : Option String
  headers : List (String × String)
  body : Option JSVal

/-- The `requestBody` field of the start event: serialized only when
`init.body` is present and truthy. -/
def fetchRequestBody (c : FetchCall) : String :=
  match c.body with
  | some b => if truthy b then serializeData b 4096 else ""
  | none => ""

/-- One run of the wrapped `fetch`.  `outcome` is the settlement of the
original fetch; `t0`, `t1`, `t2` are the successive `Date.now()` readings
(start; the terminal event's duration; the terminal event's timestamp).
Returns the emitted network events and the value returned (or error
re-thrown) to the caller.  On success the clone is read and the original
response object is returned untouched. -/
def fetchWrapped (id : String) (c : FetchCall) (outcome : Except JSErr Response)
    (t0 t1 t2 : Int) : List NetEvent × Except JSErr Response :=
  let startEv := NetEvent.start id "fetch" c.resource (jsOrStr c.method "GET")
    c.headers (fetchRequestBody c) t0
  match outcome with
  | .ok r =>
      let bt := fetchReadBody r.cloneR
      ([startEv,
        .endFetch id r.status r.statusText r.okFlag r.headers
          (serializeData (.vStr bt.1) 4096) bt.2 (t1 - t0) t2],
       .ok r)
  | .error e =>
      ([startEv, .errFetch id e.message e.stack (t1 - t0) t2], .error e)

/-! ## XHR interceptor -/

/-- The readable state of an `XMLHttpRequest` instance at completion time.
`responseText` is `.error m` when the access itself raises (as it does for
non-text response types), mirroring the `try`/`catch` in the source. -/
structure XhrState where
  status : Nat
  statusText : String
  responseType : String
  contentType : Option String
  responseText : Except String String
  response : JSVal
  allHeaders : String

/-- The byte-count text for a binary XHR response:
`response?.size || response?.byteLength || "unknown"`. -/
def binSizeText : JSVal → String
  | .vBlob n => if n = 0 then "unknown" else ⟨jNatL n⟩
  | .vArrayBuffer n => if n = 0 then "unknown" else ⟨jNatL n⟩
  | .vUint8Array bs => if bs.length = 0 then "unknown" else ⟨jNatL bs.length⟩
  | _ => "unknown"

/-- The XHR completion handler's body classification (the `try` block of
`handleResponse`): json by declared type or content-type header, binary for
blob/arraybuffer types, text otherwise; a raising read is caught into a
placeholder (leaving `responseType` at its pre-assignment value, `text`). -/
def xhrReadBody (st : XhrState) : JSVal × String :=
  if st.responseType == "json"
      || (match st.contentType with
          | some ct => jsIncludes ct "application/json"
          | none => false) then
    match st.responseText with
    | .ok t => (if t = "" then st.response else .vStr t, "json")
    | .error m => (.vStr ("[Error reading response: " ++ m ++ "]"), "text")
  else if st.responseType == "blob" || st.responseType == "arraybuffer" then
    (.vStr ("[Binary response: " ++ binSizeText st.response ++ " bytes]"), "binary")
  else
    match st.responseText with
    | .ok t =>
        (if t = "" then
           .vStr (jsToString (if truthy st.response then st.response else .vStr ""))
         else .vStr t, "text")
    | .error m => (.vStr ("[Error reading response: " ++ m ++ "]"), "text")

/-- The `end` event `handleResponse` emits.  The `ok` field is computed as
`status >= 200 && status < 400`. -/
def handleResponse (st : XhrState) (id : String) (started tDur tStamp : Int) :
    NetEvent :=
  let bt := xhrReadBody st
  .endXhr id st.status st.statusText (decide (200 ≤ st.status ∧ st.status < 400))
    st.allHeaders (serializeData bt.1 4096) bt.2 (tDur - started) tStamp

/-- The `error` event `handleError` emits. -/
def handleError (id : String) (started tDur tStamp : Int) : NetEvent :=
  .errXhr id "Network error" (tDur - started) tStamp

/-- The browser completion signals a wrapped XHR listens to. -/
inductive XhrSignal where
  | load
  | loadend
  | error
  | abort
  | timeout

/-- The listener wiring of the wrapped `send`: `load` and `loadend` are both
wired to `handleResponse`; `error`, `abort` and `timeout` to `handleError`.
Each fired signal carries its own pair of `Date.now()` readings. -/
def xhrEmitOnSignal (st : XhrState) (id : String) (started : Int) :
    XhrSignal × Int × Int → NetEvent
  | (.load, tD, tS) => handleResponse st id started tD tS
  | (.loadend, tD, tS) => handleResponse st id started tD tS
  | (.error, tD, tS) => handleError id started tD tS
  | (.abort, tD, tS) => handleError id started tD tS
  | (.timeout, tD, tS) => handleError id started tD tS

/-- All events one wrapped `send` call produces, given the browser signal
sequence `sigs` that subsequently fires on the instance: the start event,
then one emission per fired signal. -/
def xhrSendEvents (st : XhrState) (id url method : String)
    (reqHeaders : List (String × String)) (body : JSVal) (started : Int)
    (sigs : List (XhrSignal × Int × Int)) : List NetEvent :=
  NetEvent.start id "xhr" url method reqHeaders (serializeData body 4096) started
    :: sigs.map (xhrEmitOnSignal st id started)

/-! ## Navigation interceptor -/

/-- The page state the history wrappers touch: the current location href. -/
structure PageState where
  href : String

/-- The payload `emitNav` builds: `{ href: location.href, t: Date.now() }`. -/
def emitNavPayload (href : String) (now : Int) : JVal :=
  .jobj [("href", .jstr href), ("t", .jnum now)]

/-- The wrapped `history.pushState`: delegate to the original mutator first,
keep its return value, then emit one nav event read off the post-mutation
location. -/
def pushStateWrapped (orig : PageState → JSVal × PageState) (s : PageState)
    (now : Int) : JSVal × PageState × List JVal :=
  let r := orig s
  (r.1, r.2, [emitNavPayload r.2.href now])

/-- The wrapped `history.replaceState` (identical wrapping). -/
def replaceStateWrapped (orig : PageState → JSVal × PageState) (s : PageState)
    (now : Int) : JSVal × PageState × List JVal :=
  let r := orig s
  (r.1, r.2, [emitNavPayload r.2.href now])

/-! ## Session buffer and control surface -/

/-- One entry of the session buffer: a native replay event produced by the
recording substrate (an opaque JSON-safe object), or a custom tagged event
as `addCustomEvent` pushes it (`{ type: 5, data: { tag, payload },
timestamp }`). -/
inductive SessionEvent where
  | native (v : JVal)
  | custom (tag : String) (payload : JVal) (timestamp : Int)

/-- The JSON object a session entry serializes to. -/
def encodeEvent : SessionEvent → JVal
  | .native v => v
  | .custom tag payload t =>
      .jobj [("type", .jnum 5),
             ("data", .jobj [("tag", .jstr tag), ("payload", payload)]),
             ("timestamp", .jnum t)]

/-- `session.push(e)`. -/
def sessionPush (buf : List SessionEvent) (e : SessionEvent) :
    List SessionEvent :=
  buf ++ [e]

/-- `dump()` returns `session.slice()`, a copy of the buffer at call time. -/
def sessionDump (buf : List SessionEvent) : List SessionEvent := buf.drop 0

/-- The JSON tree of a whole session. -/
def sessionJson (buf : List SessionEvent) : JVal :=
  .jarr (buf.map encodeEvent)

/-- The document `download()` serializes: `JSON.stringify(session, null, 2)`. -/
def downloadDoc (buf : List SessionEvent) : String :=
  jStringify (some 2) (sessionJson buf)

/-- Can the remainder not extend a rendered number?  True when the input is
empty or starts with a non-digit; every delimiter the printer writes after
a number qualifies. -/
def jNumStop : List Char → Bool
  | [] => true
  | c :: _ => !jIsDigit c

/-- The generic JSON-encoding branch of `serializeData` (reached by truthy
values that are not strings, not `FormData` and not binary buffers):
`JSON.stringify(data).slice(0, maxSize)` with the catch falling back to
`String(data).slice(0, maxSize)`. -/
def serializeJsonPath (d : JSVal) (maxSize : Nat) : String :=
  match jsonValueOf d with
  | .val j => jsSlice (jStringify none j) maxSize
  | .undef => jsSlice (jsToString d) maxSize
  | .raises => jsSlice (jsToString d) maxSize

/-! ## Codec lemmas: whitespace -/

theorem toNat_ne {c d : Char} (h : c.toNat ≠ d.toNat) : c ≠ d :=
  fun he => h (by rw [he])

theorem jDropWs_all_ws (l : List Char) (h : ∀ c ∈ l, jIsWs c = true)
    (x : List Char) : jDropWs (l ++ x) = jDropWs x := by
  induction l with
  | nil => simp
  | cons c t ih =>
      have hc := h c (by simp)
      simp [jDropWs, hc, ih (fun d hd => h d (by simp [hd]))]

theorem wsRunL_ws (ind : Option Nat) (lvl : Nat) :
    ∀ c ∈ wsRunL ind lvl, jIsWs c = true := by
  intro c hc
  match ind with
  | none => simp [wsRunL] at hc
  | some step =>
      simp [wsRunL] at hc
      rcases hc with rfl | ⟨_, rfl⟩
      · decide
      · decide

theorem jDropWs_wsRun (ind : Option Nat) (lvl : Nat) (x : List Char) :
    jDropWs (wsRunL ind lvl ++ x) = jDropWs x :=
  jDropWs_all_ws _ (wsRunL_ws ind lvl) x

theorem jDropWs_colGap (ind : Option Nat) (x : List Char) :
    jDropWs (colGapL ind ++ x) = jDropWs x := by
  refine jDropWs_all_ws _ ?_ x
  intro c hc
  match ind with
  | none => simp [colGapL] at hc
  | some step => simp [colGapL] at hc; rw [hc]; decide

theorem jDropWs_cons_nws {c : Char} (h : jIsWs c = false) (x : List Char) :
    jDropWs (c :: x) = c :: x := by
  simp [jDropWs, h]

/-! ## Codec lemmas: numbers -/

theorem digitChar10_spec :
    ∀ d < 10, (digitChar10 d).toNat = 48 + d ∧ jIsDigit (digitChar10 d) = true := by
  decide

theorem jNatL_all_digits (n : Nat) : ∀ c ∈ jNatL n, jIsDigit c = true := by
  intro c hc
  by_cases h0 : n = 0
  · subst h0
    simp [jNatL] at hc
    rw [hc]; decide
  · simp only [jNatL, h0, if_false, List.mem_map, List.mem_reverse] at hc
    obtain ⟨d, hd, rfl⟩ := hc
    exact (digitChar10_spec d (Nat.digits_lt_base (by norm_num) hd)).2

theorem jNatL_ne_nil (n : Nat) : jNatL n ≠ [] := by
  by_cases h0 : n = 0
  · subst h0; simp [jNatL]
  · simp [jNatL, h0, Nat.digits_ne_nil_iff_ne_zero.mpr h0]

theorem jNatL_head (n : Nat) : ∃ c t, jNatL n = c :: t ∧ jIsDigit c = true := by
  match h : jNatL n with
  | [] => exact absurd h (jNatL_ne_nil n)
  | c :: t =>
      exact ⟨c, t, rfl, jNatL_all_digits n c (h ▸ List.mem_cons_self ..)⟩

theorem digit_head_facts {c : Char} (h : jIsDigit c = true) :
    jIsWs c = false ∧ c ≠ '-' ∧ c ≠ 'n' ∧ c ≠ 't' ∧ c ≠ 'f' ∧ c ≠ '"' ∧
      c ≠ '[' ∧ c ≠ '{' ∧ c ≠ ']' ∧ c ≠ '}' ∧ c ≠ ',' ∧ c ≠ ':' := by
  have hb : 48 ≤ c.toNat ∧ c.toNat ≤ 57 := by simpa [jIsDigit] using h
  have hws : jIsWs c = false := by
    simp only [jIsWs, Bool.or_eq_false_iff, beq_eq_false_iff_ne]
    omega
  refine ⟨hws, ?_, ?_, ?_, ?_, ?_, ?_, ?_, ?_, ?_, ?_, ?_⟩ <;>
    exact fun he => absurd (he ▸ h) (by decide)

theorem foldl_base10_reverse (l : List Nat) (acc : Nat) :
    l.reverse.foldl (fun a d => a * 10 + d) acc =
      acc * 10 ^ l.length + Nat.ofDigits 10 l := by
  induction l generalizing acc with
  | nil => simp
  | cons d t ih =>
      simp only [List.reverse_cons, List.foldl_append, List.foldl_cons,
        List.foldl_nil, ih, Nat.ofDigits_cons, List.length_cons, pow_succ,
        Nat.cast_id]
      ring

theorem jDigitsVal_map (l : List Nat) (h : ∀ d ∈ l, d < 10) :
    ∀ acc : Nat,
      (l.map digitChar10).foldl (fun a c => a * 10 + (c.toNat - 48)) acc =
        l.foldl (fun a d => a * 10 + d) acc := by
  induction l with
  | nil => intro acc; rfl
  | cons d t ih =>
      intro acc
      have hd := (digitChar10_spec d (h d (by simp))).1
      simp only [List.map_cons, List.foldl_cons, hd]
      rw [show 48 + d - 48 = d from by omega]
      exact ih (fun x hx => h x (by simp [hx])) _

theorem jDigitsVal_jNatL (n : Nat) : jDigitsVal (jNatL n) = n := by
  by_cases h0 : n = 0
  · subst h0; rfl
  · have hlt : ∀ d ∈ (Nat.digits 10 n).reverse, d < 10 := fun d hd =>
      Nat.digits_lt_base (by norm_num) (List.mem_reverse.mp hd)
    unfold jDigitsVal jNatL
    simp only [h0, if_false]
    rw [jDigitsVal_map _ hlt 0, foldl_base10_reverse]
    simp [Nat.ofDigits_digits]

theorem jTakeDigits_stop {cs : List Char} (h : jNumStop cs = true) :
    jTakeDigits cs = ([], cs) := by
  match cs with
  | [] => rfl
  | c :: t =>
      have hc : jIsDigit c = false := by simpa [jNumStop] using h
      simp [jTakeDigits, hc]

theorem jTakeDigits_run (ds : List Char) (hds : ∀ c ∈ ds, jIsDigit c = true)
    (rest : List Char) (hrest : jNumStop rest = true) :
    jTakeDigits (ds ++ rest) = (ds, rest) := by
  induction ds with
  | nil => simpa using jTakeDigits_stop hrest
  | cons c t ih =>
      have hc := hds c (by simp)
      simp [jTakeDigits, hc, ih (fun d hd => hds d (by simp [hd]))]

theorem jParseNum_print (i : Int) (rest : List Char)
    (h : jNumStop rest = true) :
    jParseNum (jIntL i ++ rest) = some (i, rest) := by
  by_cases hneg : i < 0
  · have harg : jIntL i ++ rest = '-' :: (jNatL i.natAbs ++ rest) := by
      simp [jIntL, hneg]
    rw [harg]
    obtain ⟨c0, t0, hct, _⟩ := jNatL_head i.natAbs
    simp only [jParseNum]
    rw [jTakeDigits_run _ (jNatL_all_digits _) _ h, hct]
    simp only [← hct, jDigitsVal_jNatL]
    have : -(i.natAbs : Int) = i := by omega
    rw [this]
  · have harg : jIntL i ++ rest = jNatL i.natAbs ++ rest := by
      simp [jIntL, hneg]
    obtain ⟨c0, t0, hct, hd0⟩ := jNatL_head i.natAbs
    obtain ⟨_, hminus, _, _, _, _, _, _, _, _, _, _⟩ := digit_head_facts hd0
    rw [harg, hct, List.cons_append]
    simp only [jParseNum]
    split
    · next r heq =>
        exact absurd (List.head_eq_of_cons_eq heq.symm) (Ne.symm hminus)
    · rw [← List.cons_append, ← hct,
        jTakeDigits_run _ (jNatL_all_digits _) _ h, hct]
      simp only [← hct, jDigitsVal_jNatL]
      have : (i.natAbs : Int) = i := by omega
      rw [this]

/-! ## Codec lemmas: strings -/

theorem hexNib_hexChar16 : ∀ d < 16, hexNib (hexChar16 d) = some d := by
  decide

theorem jParseStr_esc (c : Char) (acc rest : List Char) :
    jParseStr acc (jEscChar c ++ rest) = jParseStr (c :: acc) rest := by
  by_cases h1 : c = '"'
  · subst h1; rfl
  by_cases h2 : c = '\\'
  · subst h2; rfl
  by_cases h3 : c = '\n'
  · subst h3; rfl
  by_cases h4 : c = '\r'
  · subst h4; rfl
  by_cases h5 : c = '\t'
  · subst h5; rfl
  by_cases h6 : c = Char.ofNat 8
  · subst h6; rfl
  by_cases h7 : c = Char.ofNat 12
  · subst h7; rfl
  by_cases h8 : c.toNat < 32
  · have hesc : jEscChar c ++ rest =
        '\\' :: 'u' :: '0' :: '0' :: hexChar16 (c.toNat / 16)
          :: hexChar16 (c.toNat % 16) :: rest := by
      simp [jEscChar, h1, h2, h3, h4, h5, h6, h7, h8]
    rw [hesc]
    have hhi : hexNib (hexChar16 (c.toNat / 16)) = some (c.toNat / 16) :=
      hexNib_hexChar16 _ (by omega)
    have hlo : hexNib (hexChar16 (c.toNat % 16)) = some (c.toNat % 16) :=
      hexNib_hexChar16 _ (by omega)
    simp only [jParseStr, hhi, hlo, show hexNib '0' = some 0 from rfl]
    rw [show ((0 * 16 + 0) * 16 + c.toNat / 16) * 16 + c.toNat % 16 = c.toNat
      from by omega]
    rw [Char.ofNat_toNat]
  · have hesc : jEscChar c ++ rest = c :: rest := by
      simp [jEscChar, h1, h2, h3, h4, h5, h6, h7, h8]
    rw [hesc, jParseStr.eq_def]
    split
    · next heq => exact absurd (List.head_eq_of_cons_eq heq.symm) (Ne.symm h1)
    · next heq => exact absurd (List.head_eq_of_cons_eq heq.symm) (Ne.symm h2)
    · next heq => exact absurd (List.head_eq_of_cons_eq heq.symm) (Ne.symm h2)
    · next x r heq =>
        injection heq with hx hr
        subst hx; subst hr; rfl
    · next heq => simp at heq

theorem jParseStr_print_aux (cs : List Char) : ∀ acc rest : List Char,
    jParseStr acc (cs.flatMap jEscChar ++ '"' :: rest) =
      some (⟨acc.reverse ++ cs⟩, rest) := by
  induction cs with
  | nil => intro acc rest; simp [jParseStr]
  | cons c t ih =>
      intro acc rest
      rw [List.flatMap_cons, List.append_assoc, jParseStr_esc, ih]
      simp

theorem jStrL_parse (s : String) (rest : List Char) :
    jParseStr [] (s.data.flatMap jEscChar ++ '"' :: rest) = some (s, rest) := by
  rw [jParseStr_print_aux]
  simp

/-! ## Codec lemmas: printed output heads -/

theorem jPrint_head (ind : Option Nat) (lvl : Nat) (v : JVal) :
    ∃ c t, jPrint ind lvl v = c :: t ∧ jIsWs c = false ∧ c ≠ ']' ∧ c ≠ '}'
      ∧ c ≠ ',' := by
  cases v with
  | jnull =>
      exact ⟨'n', ['u', 'l', 'l'], by simp [jPrint], by decide, by decide,
        by decide, by decide⟩
  | jbool b =>
      cases b with
      | true =>
          exact ⟨'t', ['r', 'u', 'e'], by simp [jPrint], by decide, by decide,
            by decide, by decide⟩
      | false =>
          exact ⟨'f', ['a', 'l', 's', 'e'], by simp [jPrint], by decide,
            by decide, by decide, by decide⟩
  | jnum i =>
      by_cases hneg : i < 0
      · refine ⟨'-', jNatL i.natAbs, ?_, by decide, by decide, by decide, by decide⟩
        simp [jPrint, jIntL, hneg]
      · obtain ⟨c0, t0, hct, hd0⟩ := jNatL_head i.natAbs
        obtain ⟨hws, _, _, _, _, _, _, _, hcb, hob, hcm, _⟩ := digit_head_facts hd0
        refine ⟨c0, t0, ?_, hws, hcb, hob, hcm⟩
        simp [jPrint, jIntL, hneg, hct]
  | jstr s =>
      exact ⟨'"', s.data.flatMap jEscChar ++ ['"'], by simp [jPrint, jStrL],
        by decide, by decide, by decide, by decide⟩
  | jarr es =>
      cases es with
      | nil =>
          exact ⟨'[', [']'], by simp [jPrint], by decide, by decide, by decide,
            by decide⟩
      | cons e es' =>
          exact ⟨'[', wsRunL ind (lvl + 1) ++ (jPrintItems ind (lvl + 1) e es'
              ++ (wsRunL ind lvl ++ [']'])),
            by simp [jPrint], by decide, by decide, by decide, by decide⟩
  | jobj fs =>
      cases fs with
      | nil =>
          exact ⟨'{', ['}'], by simp [jPrint], by decide, by decide, by decide,
            by decide⟩
      | cons f fs' =>
          exact ⟨'{', wsRunL ind (lvl + 1) ++ (jPrintFields ind (lvl + 1) f fs'
              ++ (wsRunL ind lvl ++ ['}'])),
            by simp [jPrint], by decide, by decide, by decide, by decide⟩

theorem jPrint_ne_nil (ind : Option Nat) (lvl : Nat) (v : JVal) :
    jPrint ind lvl v ≠ [] := by
  obtain ⟨c, t, hp, _⟩ := jPrint_head ind lvl v
  simp [hp]

theorem jDropWs_jPrint (ind : Option Nat) (lvl : Nat) (v : JVal)
    (x : List Char) :
    jDropWs (jPrint ind lvl v ++ x) = jPrint ind lvl v ++ x := by
  obtain ⟨c, t, hp, hws, _⟩ := jPrint_head ind lvl v
  rw [hp, List.cons_append, jDropWs_cons_nws hws]

theorem jPrintItems_head (ind : Option Nat) (lvl : Nat) (e : JVal)
    (es : List JVal) :
    ∃ c t, jPrintItems ind lvl e es = c :: t ∧ jIsWs c = false ∧ c ≠ ']' := by
  obtain ⟨c, t, hp, h1, h2, _⟩ := jPrint_head ind lvl e
  cases es with
  | nil => exact ⟨c, t, by simp [jPrintItems, hp], h1, h2⟩
  | cons x xs =>
      exact ⟨c, t ++ ',' :: (wsRunL ind lvl ++ jPrintItems ind lvl x xs),
        by simp [jPrintItems, hp], h1, h2⟩

theorem jDropWs_jPrintItems (ind : Option Nat) (lvl : Nat) (e : JVal)
    (es : List JVal) (x : List Char) :
    jDropWs (jPrintItems ind lvl e es ++ x) = jPrintItems ind lvl e es ++ x := by
  obtain ⟨c, t, hp, hws, _⟩ := jPrintItems_head ind lvl e es
  rw [hp, List.cons_append, jDropWs_cons_nws hws]

theorem jPrintFields_head (ind : Option Nat) (lvl : Nat) (f : String × JVal)
    (fs : List (String × JVal)) :
    ∃ t, jPrintFields ind lvl f fs = '"' :: t := by
  obtain ⟨k, w⟩ := f
  cases fs with
  | nil =>
      exact ⟨k.data.flatMap jEscChar
          ++ '"' :: ':' :: (colGapL ind ++ jPrint ind lvl w),
        by simp [jPrintFields, jStrL]⟩
  | cons x xs =>
      exact ⟨k.data.flatMap jEscChar
          ++ '"' :: ':' :: (colGapL ind ++ (jPrint ind lvl w
              ++ ',' :: (wsRunL ind lvl ++ jPrintFields ind lvl x xs))),
        by simp [jPrintFields, jStrL]⟩

theorem jDropWs_jPrintFields (ind : Option Nat) (lvl : Nat)
    (f : String × JVal) (fs : List (String × JVal)) (x : List Char) :
    jDropWs (jPrintFields ind lvl f fs ++ x) = jPrintFields ind lvl f fs ++ x := by
  obtain ⟨t, hp⟩ := jPrintFields_head ind lvl f fs
  rw [hp, List.cons_append, jDropWs_cons_nws (by decide)]

theorem jNumStop_wsRun (ind : Option Nat) (lvl : Nat) {c : Char}
    (hc : jIsDigit c = false) (x : List Char) :
    jNumStop (wsRunL ind lvl ++ c :: x) = true := by
  match ind with
  | none => simp [wsRunL, jNumStop, hc]
  | some step => rfl

theorem jNumStop_cons {c : Char} (hc : jIsDigit c = false) (x : List Char) :
    jNumStop (c :: x) = true := by
  simp [jNumStop, hc]

/-! ## Codec lemmas: parser unfoldings -/

theorem jParseVal_arr_unfold (f : Nat) (X : List Char) :
    jParseVal (f + 1) ('[' :: X) =
      match jDropWs X with
      | ']' :: r' => some (.jarr [], r')
      | other =>
          match jParseItems f other with
          | some (es, r') => some (.jarr es, r')
          | none => none := rfl

theorem jParseVal_obj_unfold (f : Nat) (X : List Char) :
    jParseVal (f + 1) ('{' :: X) =
      match jDropWs X with
      | '}' :: r' => some (.jobj [], r')
      | other =>
          match jParseFields f other with
          | some (fs, r') => some (.jobj fs, r')
          | none => none := rfl

theorem jParseVal_str_unfold (f : Nat) (X : List Char) :
    jParseVal (f + 1) ('"' :: X) =
      match jParseStr [] X with
      | some (s, r') => some (.jstr s, r')
      | none => none := rfl

theorem jParseVal_minus_unfold (f : Nat) (X : List Char) :
    jParseVal (f + 1) ('-' :: X) =
      match jParseNum ('-' :: X) with
      | some (i, r') => some (.jnum i, r')
      | none => none := rfl

theorem jParseVal_digit_unfold (f : Nat) {c0 : Char} (hd : jIsDigit c0 = true)
    (X : List Char) :
    jParseVal (f + 1) (c0 :: X) =
      match jParseNum (c0 :: X) with
      | some (i, r') => some (.jnum i, r')
      | none => none := by
  obtain ⟨hws, _, hn, ht, hf', hq, hk, hb, _, _, _, _⟩ := digit_head_facts hd
  simp only [jParseVal]
  rw [jDropWs_cons_nws hws]
  split
  · next heq => exact absurd (List.head_eq_of_cons_eq heq.symm) (Ne.symm hn)
  · next heq => exact absurd (List.head_eq_of_cons_eq heq.symm) (Ne.symm ht)
  · next heq => exact absurd (List.head_eq_of_cons_eq heq.symm) (Ne.symm hf')
  · next heq => exact absurd (List.head_eq_of_cons_eq heq.symm) (Ne.symm hq)
  · next heq => exact absurd (List.head_eq_of_cons_eq heq.symm) (Ne.symm hk)
  · next heq => exact absurd (List.head_eq_of_cons_eq heq.symm) (Ne.symm hb)
  · next c r heq =>
      injection heq with h1 h2
      subst h1; subst h2
      simp [hd]
  · next heq => simp at heq

theorem jParseItems_unfold (f : Nat) (cs : List Char) :
    jParseItems (f + 1) cs =
      match jParseVal f cs with
      | none => none
      | some (v, r) =>
          match jDropWs r with
          | ',' :: r' =>
              match jParseItems f (jDropWs r') with
              | some (vs, r'') => some (v :: vs, r'')
              | none => none
          | ']' :: r' => some ([v], r')
          | _ => none := rfl

theorem jParseFields_unfold (f : Nat) (cs : List Char) :
    jParseFields (f + 1) cs =
      match jDropWs cs with
      | '"' :: r =>
          match jParseStr [] r with
          | none => none
          | some (k, r1) =>
              match jDropWs r1 with
              | ':' :: r2 =>
                  match jParseVal f (jDropWs r2) with
                  | none => none
                  | some (v, r3) =>
                      match jDropWs r3 with
                      | ',' :: r4 =>
                          match jParseFields f (jDropWs r4) with
                          | some (fs, r5) => some ((k, v) :: fs, r5)
                          | none => none
                      | '}' :: r4 => some ([(k, v)], r4)
                      | _ => none
              | _ => none
      | _ => none := rfl

/-! ## The codec round-trip -/

theorem jDropWs_sq (x : List Char) : jDropWs (']' :: x) = ']' :: x := by
  simp [jDropWs, jIsWs]

theorem jDropWs_cl (x : List Char) : jDropWs ('}' :: x) = '}' :: x := by
  simp [jDropWs, jIsWs]

theorem jDropWs_comma (x : List Char) : jDropWs (',' :: x) = ',' :: x := by
  simp [jDropWs, jIsWs]

theorem jDropWs_colon (x : List Char) : jDropWs (':' :: x) = ':' :: x := by
  simp [jDropWs, jIsWs]

theorem jNumStop_wsRun_cl (ind : Option Nat) (lvl : Nat) (x : List Char) :
    jNumStop (wsRunL ind lvl ++ '}' :: x) = true :=
  jNumStop_wsRun ind lvl (by decide) x

theorem jNumStop_comma (x : List Char) : jNumStop (',' :: x) = true :=
  jNumStop_cons (by decide) x

mutual
theorem rtVal : ∀ (v : JVal) (ind : Option Nat) (lvl fuel : Nat)
    (rest : List Char), (jPrint ind lvl v).length < fuel →
    jNumStop rest = true →
    jParseVal fuel (jPrint ind lvl v ++ rest) = some (v, rest)
  | .jnull, ind, lvl, fuel, rest, hf, _ => by
      cases fuel with
      | zero => exact absurd hf (Nat.not_lt_zero _)
      | succ f =>
          have hp : jPrint ind lvl .jnull ++ rest
              = 'n' :: 'u' :: 'l' :: 'l' :: rest := by simp [jPrint]
          rw [hp]; rfl
  | .jbool true, ind, lvl, fuel, rest, hf, _ => by
      cases fuel with
      | zero => exact absurd hf (Nat.not_lt_zero _)
      | succ f =>
          have hp : jPrint ind lvl (.jbool true) ++ rest
              = 't' :: 'r' :: 'u' :: 'e' :: rest := by simp [jPrint]
          rw [hp]; rfl
  | .jbool false, ind, lvl, fuel, rest, hf, _ => by
      cases fuel with
      | zero => exact absurd hf (Nat.not_lt_zero _)
      | succ f =>
          have hp : jPrint ind lvl (.jbool false) ++ rest
              = 'f' :: 'a' :: 'l' :: 's' :: 'e' :: rest := by simp [jPrint]
          rw [hp]; rfl
  | .jnum i, ind, lvl, fuel, rest, hf, hr => by
      cases fuel with
      | zero => exact absurd hf (Nat.not_lt_zero _)
      | succ f =>
          have hp : jPrint ind lvl (.jnum i) = jIntL i := by simp [jPrint]
          rw [hp]
          by_cases hneg : i < 0
          · have h2 : jIntL i ++ rest = '-' :: (jNatL i.natAbs ++ rest) := by
              simp [jIntL, hneg]
            rw [h2, jParseVal_minus_unfold, ← h2, jParseNum_print i rest hr]
          · obtain ⟨c0, t0, hct, hd0⟩ := jNatL_head i.natAbs
            have h2 : jIntL i ++ rest = c0 :: (t0 ++ rest) := by
              simp [jIntL, hneg, hct]
            rw [h2, jParseVal_digit_unfold f hd0, ← h2, jParseNum_print i rest hr]
  | .jstr s, ind, lvl, fuel, rest, hf, _ => by
      cases fuel with
      | zero => exact absurd hf (Nat.not_lt_zero _)
      | succ f =>
          have hp : jPrint ind lvl (.jstr s) ++ rest
              = '"' :: (s.data.flatMap jEscChar ++ '"' :: rest) := by
            simp [jPrint, jStrL]
          rw [hp, jParseVal_str_unfold, jStrL_parse]
  | .jarr [], ind, lvl, fuel, rest, hf, _ => by
      cases fuel with
      | zero => exact absurd hf (Nat.not_lt_zero _)
      | succ f =>
          have hp : jPrint ind lvl (.jarr []) ++ rest = '[' :: (']' :: rest) := by
            simp [jPrint]
          rw [hp, jParseVal_arr_unfold]
          simp only [jDropWs_sq]
  | .jarr (e :: es), ind, lvl, fuel, rest, hf, _ => by
      cases fuel with
      | zero => exact absurd hf (Nat.not_lt_zero _)
      | succ f =>
          have hp : jPrint ind lvl (.jarr (e :: es)) ++ rest
              = '[' :: (wsRunL ind (lvl + 1) ++ (jPrintItems ind (lvl + 1) e es
                  ++ (wsRunL ind lvl ++ (']' :: rest)))) := by
            simp [jPrint]
          have hflen := hf
          simp only [jPrint, List.length_cons, List.length_append] at hflen
          have hfi : (jPrintItems ind (lvl + 1) e es).length + 1 < f := by omega
          have key := rtItems e es ind (lvl + 1) lvl f rest hfi
          obtain ⟨c0, t0, hcons, _, hne0⟩ := jPrintItems_head ind (lvl + 1) e es
          rw [hp, jParseVal_arr_unfold, jDropWs_wsRun, jDropWs_jPrintItems]
          rw [hcons, List.cons_append]
          split
          · next heq => exact absurd (List.head_eq_of_cons_eq heq.symm) (Ne.symm hne0)
          · rw [← List.cons_append, ← hcons, key]
  | .jobj [], ind, lvl, fuel, rest, hf, _ => by
      cases fuel with
      | zero => exact absurd hf (Nat.not_lt_zero _)
      | succ f =>
          have hp : jPrint ind lvl (.jobj []) ++ rest = '{' :: ('}' :: rest) := by
            simp [jPrint]
          rw [hp, jParseVal_obj_unfold]
          simp only [jDropWs_cl]
  | .jobj (fd :: fs), ind, lvl, fuel, rest, hf, _ => by
      cases fuel with
      | zero => exact absurd hf (Nat.not_lt_zero _)
      | succ f =>
          have hp : jPrint ind lvl (.jobj (fd :: fs)) ++ rest
              = '{' :: (wsRunL ind (lvl + 1) ++ (jPrintFields ind (lvl + 1) fd fs
                  ++ (wsRunL ind lvl ++ ('}' :: rest)))) := by
            simp [jPrint]
          have hflen := hf
          simp only [jPrint, List.length_cons, List.length_append] at hflen
          have hfi : (jPrintFields ind (lvl + 1) fd fs).length + 1 < f := by omega
          have key := rtFields fd fs ind (lvl + 1) lvl f rest hfi
          obtain ⟨t0, hcons⟩ := jPrintFields_head ind (lvl + 1) fd fs
          rw [hp, jParseVal_obj_unfold, jDropWs_wsRun, jDropWs_jPrintFields]
          rw [hcons, List.cons_append]
          split
          · next heq =>
              exact absurd (List.head_eq_of_cons_eq heq.symm) (by decide)
          · rw [← List.cons_append, ← hcons, key]
termination_by v => sizeOf v

theorem rtItems : ∀ (e : JVal) (es : List JVal) (ind : Option Nat)
    (lvlI lvlC fuel : Nat) (rest : List Char),
    (jPrintItems ind lvlI e es).length + 1 < fuel →
    jParseItems fuel (jPrintItems ind lvlI e es
      ++ (wsRunL ind lvlC ++ (']' :: rest))) = some (e :: es, rest)
  | e, [], ind, lvlI, lvlC, fuel, rest, hf => by
      cases fuel with
      | zero => exact absurd hf (Nat.not_lt_zero _)
      | succ f =>
          have hitems : jPrintItems ind lvlI e [] = jPrint ind lvlI e := by
            simp [jPrintItems]
          have hfe : (jPrint ind lvlI e).length < f := by
            rw [hitems] at hf; omega
          rw [hitems, jParseItems_unfold,
            rtVal e ind lvlI f _ hfe (jNumStop_wsRun ind lvlC (by decide) rest)]
          simp only [jDropWs_wsRun, jDropWs_sq]
  | e, x :: xs, ind, lvlI, lvlC, fuel, rest, hf => by
      cases fuel with
      | zero => exact absurd hf (Nat.not_lt_zero _)
      | succ f =>
          have hflen := hf
          simp only [jPrintItems, List.length_cons, List.length_append] at hflen
          have hpos : 0 < (jPrint ind lvlI e).length :=
            List.length_pos.mpr (jPrint_ne_nil ind lvlI e)
          have hfe : (jPrint ind lvlI e).length < f := by omega
          have hfx : (jPrintItems ind lvlI x xs).length + 1 < f := by omega
          have harg : jPrintItems ind lvlI e (x :: xs)
                ++ (wsRunL ind lvlC ++ (']' :: rest))
              = jPrint ind lvlI e ++ (',' :: (wsRunL ind lvlI
                  ++ (jPrintItems ind lvlI x xs
                    ++ (wsRunL ind lvlC ++ (']' :: rest))))) := by
            simp [jPrintItems]
          rw [harg, jParseItems_unfold,
            rtVal e ind lvlI f _ hfe (jNumStop_cons (by decide) _)]
          simp only [jDropWs_comma, jDropWs_wsRun, jDropWs_jPrintItems,
            rtItems x xs ind lvlI lvlC f rest hfx]
termination_by e es => sizeOf e + sizeOf es

theorem rtFields : ∀ (fd : String × JVal) (fs : List (String × JVal))
    (ind : Option Nat) (lvlI lvlC fuel : Nat) (rest : List Char),
    (jPrintFields ind lvlI fd fs).length + 1 < fuel →
    jParseFields fuel (jPrintFields ind lvlI fd fs
      ++ (wsRunL ind lvlC ++ ('}' :: rest))) = some (fd :: fs, rest)
  | (k, w), [], ind, lvlI, lvlC, fuel, rest, hf => by
      cases fuel with
      | zero => exact absurd hf (Nat.not_lt_zero _)
      | succ f =>
          have hflen := hf
          simp only [jPrintFields, jStrL, List.length_cons, List.length_append]
            at hflen
          have hfw : (jPrint ind lvlI w).length < f := by omega
          have harg : jPrintFields ind lvlI (k, w) []
                ++ (wsRunL ind lvlC ++ ('}' :: rest))
              = '"' :: (k.data.flatMap jEscChar ++ ('"' :: (':' :: (colGapL ind
                  ++ (jPrint ind lvlI w
                    ++ (wsRunL ind lvlC ++ ('}' :: rest))))))) := by
            simp [jPrintFields, jStrL]
          rw [harg, jParseFields_unfold, jDropWs_cons_nws (by decide)]
          simp only [jStrL_parse, jDropWs_colon, jDropWs_colGap, jDropWs_jPrint,
            rtVal w ind lvlI f _ hfw (jNumStop_wsRun_cl ind lvlC rest),
            jDropWs_wsRun, jDropWs_cl]
  | (k, w), x :: xs, ind, lvlI, lvlC, fuel, rest, hf => by
      cases fuel with
      | zero => exact absurd hf (Nat.not_lt_zero _)
      | succ f =>
          have hflen := hf
          simp only [jPrintFields, jStrL, List.length_cons, List.length_append]
            at hflen
          have hfw : (jPrint ind lvlI w).length < f := by omega
          have hfx : (jPrintFields ind lvlI x xs).length + 1 < f := by omega
          have harg : jPrintFields ind lvlI (k, w) (x :: xs)
                ++ (wsRunL ind lvlC ++ ('}' :: rest))
              = '"' :: (k.data.flatMap jEscChar ++ ('"' :: (':' :: (colGapL ind
                  ++ (jPrint ind lvlI w ++ (',' :: (wsRunL ind lvlI
                    ++ (jPrintFields ind lvlI x xs
                      ++ (wsRunL ind lvlC ++ ('}' :: rest)))))))))) := by
            simp [jPrintFields, jStrL]
          rw [harg, jParseFields_unfold, jDropWs_cons_nws (by decide)]
          simp only [jStrL_parse, jDropWs_colon, jDropWs_colGap, jDropWs_jPrint,
            rtVal w ind lvlI f _ hfw (jNumStop_comma _),
            jDropWs_comma, jDropWs_wsRun, jDropWs_jPrintFields,
            rtFields x xs ind lvlI lvlC f rest hfx]
termination_by fd fs => sizeOf fd + sizeOf fs
end


/-- The top-level round-trip: parsing a document the recorder's export
printed recovers exactly the printed value. -/
theorem jParse_jStringify (ind : Option Nat) (v : JVal) :
    jParse (jStringify ind v) = some v := by
  have hlen : (jStringify ind v).data = jPrint ind 0 v := rfl
  unfold jParse
  rw [hlen]
  have hmain := rtVal v ind 0 ((jPrint ind 0 v).length + 1) []
    (by omega) rfl
  rw [List.append_nil] at hmain
  rw [hmain]
  rfl

/-! ## Claim theorems -/

/-- C8: `download()` serializes the whole session buffer with
`JSON.stringify(session, null, 2)`; parsing the exported document yields
exactly the JSON tree of the `dump()` taken at export time, for a buffer of
any contents; and `dump()` has snapshot semantics: a later `push` appends
one entry without affecting what an earlier dump returned. -/
theorem download_roundtrip_dump (buf : List SessionEvent) (e : SessionEvent) :
    jParse (downloadDoc buf) = some (sessionJson (sessionDump buf)) ∧
    sessionDump buf = buf ∧
    sessionDump (sessionPush buf e) = sessionDump buf ++ [e] := by
  refine ⟨?_, by simp [sessionDump], by simp [sessionDump, sessionPush]⟩
  rw [downloadDoc, jParse_jStringify]
  simp [sessionDump]

/-- C4: on a string input, `serializeData s n` is the prefix of `s` of
length `min (length s) n` (code units of the model's string type): the
empty string is caught by the falsy guard and anything else is sliced. -/
theorem serialize_string_min_prefix (s : String) (n : Nat) :
    (serializeData (.vStr s) n).length = min s.length n ∧
    (serializeData (.vStr s) n).data <+: s.data := by
  by_cases h : s = ""
  · subst h
    exact ⟨by simp [serializeData, truthy], by simp [serializeData, truthy]⟩
  · have ht : truthy (.vStr s) = true := by simp [truthy, h]
    have hs : serializeData (.vStr s) n = ⟨s.data.take n⟩ := by
      simp [serializeData, ht, jsSlice]
    rw [hs]
    constructor
    · show (s.data.take n).length = min s.length n
      rw [List.length_take, Nat.min_comm]
      rfl
    · exact List.take_prefix n s.data

/-- C3 counterexample: a circular plain object's structural JSON encoding
raises, and at cap 0 the `String(data).slice(0, 0)` fallback returns the
empty string — so the claim's "returns a non-empty string" fails for the
cap 0 that its "every cap" includes. -/
theorem serialize_raising_cap_zero :
    jsonValueOf (.vObj none) = .raises ∧ serializeData (.vObj none) 0 = "" :=
  ⟨rfl, rfl⟩

/-- C3 amended: `serializeData` is total (never raises; in the model it is a
plain function), and for every value whose structural JSON encoding raises
and every cap `n ≥ 1` it returns the truncation of the generic string
coercion, which is non-empty.  Only the cap 0 case of the original claim
had to be dropped. -/
theorem serialize_raising_falls_back (v : JSVal) (n : Nat)
    (hraise : jsonValueOf v = .raises) (hn : 1 ≤ n) :
    serializeData v n = jsSlice (jsToString v) n ∧ serializeData v n ≠ "" := by
  cases v with
  | vNull => simp [jsonValueOf] at hraise
  | vUndefined => simp [jsonValueOf] at hraise
  | vBool b => simp [jsonValueOf] at hraise
  | vNum m =>
      cases m with
      | int i => simp [jsonValueOf] at hraise
      | nan => simp [jsonValueOf] at hraise
  | vStr s => simp [jsonValueOf] at hraise
  | vErr a b c => simp [jsonValueOf] at hraise
  | vFormData es => simp [jsonValueOf] at hraise
  | vArrayBuffer k => simp [jsonValueOf] at hraise
  | vUint8Array bs => simp [jsonValueOf] at hraise
  | vBlob k => simp [jsonValueOf] at hraise
  | vObj t =>
      cases t with
      | some j => simp [jsonValueOf] at hraise
      | none =>
          refine ⟨rfl, ?_⟩
          intro hemp
          have hd := congrArg String.data hemp
          have hd' : ("[object Object]" : String).data.take n = [] := hd
          rw [List.take_eq_nil_iff] at hd'
          rcases hd' with h1 | h1
          · omega
          · exact absurd h1 (by decide)

/-- Witness for the amended C3 at the concrete circular object and the
default cap 4096. -/
theorem serialize_raising_falls_back_witness :
    jsonValueOf (.vObj none) = .raises ∧ (1 : Nat) ≤ 4096 ∧
    (serializeData (.vObj none) 4096 = jsSlice (jsToString (.vObj none)) 4096 ∧
     serializeData (.vObj none) 4096 ≠ "") :=
  ⟨rfl, by decide, serialize_raising_falls_back (.vObj none) 4096 rfl (by decide)⟩

/-- C9: every falsy input (null, undefined, empty string, 0, false, NaN)
serializes to the empty string — in particular 0 and false give `""`, not
`"0"` or `"false"` — and every truthy value that is not a string, not
`FormData` and not a binary buffer takes the generic JSON-encoding path. -/
theorem serialize_falsy_and_json_path :
    (∀ n : Nat,
       serializeData .vNull n = "" ∧ serializeData .vUndefined n = "" ∧
       serializeData (.vStr "") n = "" ∧ serializeData (.vNum (.int 0)) n = "" ∧
       serializeData (.vBool false) n = "" ∧ serializeData (.vNum .nan) n = "") ∧
    (∀ (v : JSVal) (n : Nat), truthy v = true →
       (∀ s, v ≠ .vStr s) → (∀ es, v ≠ .vFormData es) →
       (∀ k, v ≠ .vArrayBuffer k) → (∀ bs, v ≠ .vUint8Array bs) →
       serializeData v n = serializeJsonPath v n) := by
  constructor
  · intro n
    exact ⟨rfl, rfl, rfl, rfl, rfl, rfl⟩
  · intro v n ht hs hfd hab hu8
    cases v with
    | vStr s => exact absurd rfl (hs s)
    | vFormData es => exact absurd rfl (hfd es)
    | vArrayBuffer k => exact absurd rfl (hab k)
    | vUint8Array bs => exact absurd rfl (hu8 bs)
    | vNull => simp [truthy] at ht
    | vUndefined => simp [truthy] at ht
    | vNum m =>
        cases m with
        | int i =>
            have hi : ¬ i = 0 := by simpa [truthy] using ht
            simp [serializeData, serializeJsonPath, truthy, hi]
        | nan => simp [truthy] at ht
    | vBool b =>
        cases b with
        | false => simp [truthy] at ht
        | true => rfl
    | vErr a b c => rfl
    | vBlob k => rfl
    | vObj t => rfl

/-- Witness for C9's JSON-path clause at an `Error` value and cap 10, plus
the falsy clause at cap 3. -/
theorem serialize_falsy_and_json_path_witness :
    (serializeData (.vNum (.int 0)) 3 = "" ∧
     serializeData (.vBool false) 3 = "") ∧
    truthy (.vErr "TypeError" "boom" "trace") = true ∧
    serializeData (.vErr "TypeError" "boom" "trace") 10 =
      serializeJsonPath (.vErr "TypeError" "boom" "trace") 10 :=
  ⟨⟨(serialize_falsy_and_json_path.1 3).2.2.2.1,
    (serialize_falsy_and_json_path.1 3).2.2.2.2.1⟩,
   rfl,
   serialize_falsy_and_json_path.2 (.vErr "TypeError" "boom" "trace") 10 rfl
     (fun _ h => nomatch h) (fun _ h => nomatch h) (fun _ h => nomatch h)
     (fun _ h => nomatch h)⟩

/-- C5: one call to a wrapped console method invokes the original method
first (head of the trace) with the exact original arguments, exactly once;
and when the capture sink raises, the trace ends with a report through the
original (unwrapped) error logger — nothing is re-thrown (the wrapper's
trace is a total function of the call). -/
theorem console_original_first_capture_contained (level : String)
    (args : List JSVal) (href : String) (now : Int) (sinkRaises : Bool)
    (_hlv : level ∈ consoleLevels) :
    (consoleWrapped level args href now sinkRaises).head? =
      some (.callOriginal level args) ∧
    (consoleWrapped level args href now sinkRaises).countP
      ConsoleStep.isCallOriginal = 1 ∧
    (sinkRaises = true →
      consoleWrapped level args href now sinkRaises =
        [.callOriginal level args, .reportViaOriginalError]) := by
  refine ⟨rfl, ?_, ?_⟩
  · cases sinkRaises
    · rfl
    · rfl
  · intro h
    subst h
    rfl

/-- Witness for C5 at `console.log(0)` with a raising sink. -/
theorem console_original_first_capture_contained_witness :
    "log" ∈ consoleLevels ∧
    ((consoleWrapped "log" [.vNum (.int 0)] "https://h/" 5 true).head? =
       some (.callOriginal "log" [.vNum (.int 0)]) ∧
     (consoleWrapped "log" [.vNum (.int 0)] "https://h/" 5 true).countP
       ConsoleStep.isCallOriginal = 1 ∧
     (true = true →
       consoleWrapped "log" [.vNum (.int 0)] "https://h/" 5 true =
         [.callOriginal "log" [.vNum (.int 0)], .reportViaOriginalError])) :=
  ⟨by decide,
   console_original_first_capture_contained "log" [.vNum (.int 0)] "https://h/"
     5 true (by decide)⟩

/-- C2: one wrapped fetch run emits exactly one start event and exactly one
terminal event; the trace is exactly `[start, terminal]` with both carrying
the same correlation id; under a monotone clock (`t0 ≤ t1 ≤ t2` are the
successive `Date.now()` readings) the terminal timestamp is at least the
start timestamp and the recorded duration is nonnegative; the terminal
phase is `end` on resolution and `error` on rejection. -/
theorem fetch_one_start_one_terminal (id : String) (c : FetchCall)
    (outcome : Except JSErr Response) (t0 t1 t2 : Int)
    (h01 : t0 ≤ t1) (h12 : t1 ≤ t2) :
    ((fetchWrapped id c outcome t0 t1 t2).1.countP NetEvent.isStart = 1) ∧
    ((fetchWrapped id c outcome t0 t1 t2).1.countP NetEvent.isTerminal = 1) ∧
    (∃ term : NetEvent,
      (fetchWrapped id c outcome t0 t1 t2).1 =
        [NetEvent.start id "fetch" c.resource (jsOrStr c.method "GET")
           c.headers (fetchRequestBody c) t0, term] ∧
      term.isTerminal = true ∧ term.evId = id ∧
      term.ts = t2 ∧ t0 ≤ term.ts ∧
      term.durationVal = t1 - t0 ∧ 0 ≤ term.durationVal ∧
      (match outcome with
       | .ok _ => term.isEnd = true
       | .error _ => term.isErr = true)) := by
  cases outcome with
  | ok _ =>
      exact ⟨rfl, rfl, ⟨_, rfl, rfl, rfl, rfl,
        by simp only [NetEvent.ts]; omega, rfl,
        by simp only [NetEvent.durationVal]; omega, rfl⟩⟩
  | error _ =>
      exact ⟨rfl, rfl, ⟨_, rfl, rfl, rfl, rfl,
        by simp only [NetEvent.ts]; omega, rfl,
        by simp only [NetEvent.durationVal]; omega, rfl⟩⟩

/-- Witness for C2 at a concrete rejected fetch with clock readings
1 ≤ 2 ≤ 3. -/
theorem fetch_one_start_one_terminal_witness :
    ((1 : Int) ≤ 2 ∧ (2 : Int) ≤ 3) ∧
    (((fetchWrapped "w1" ⟨"https://a/", none, [], none⟩
         (.error ⟨"boom", "st"⟩) 1 2 3).1.countP NetEvent.isStart = 1) ∧
     ((fetchWrapped "w1" ⟨"https://a/", none, [], none⟩
         (.error ⟨"boom", "st"⟩) 1 2 3).1.countP NetEvent.isTerminal = 1) ∧
     (∃ term : NetEvent,
       (fetchWrapped "w1" ⟨"https://a/", none, [], none⟩
           (.error ⟨"boom", "st"⟩) 1 2 3).1 =
         [NetEvent.start "w1" "fetch" "https://a/" (jsOrStr none "GET") []
            (fetchRequestBody ⟨"https://a/", none, [], none⟩) 1, term] ∧
       term.isTerminal = true ∧ term.evId = "w1" ∧
       term.ts = 3 ∧ (1 : Int) ≤ term.ts ∧
       term.durationVal = 2 - 1 ∧ 0 ≤ term.durationVal ∧
       (match (Except.error ⟨"boom", "st"⟩ : Except JSErr Response) with
        | .ok _ => term.isEnd = true
        | .error _ => term.isErr = true))) :=
  ⟨⟨by decide, by decide⟩,
   fetch_one_start_one_terminal "w1" ⟨"https://a/", none, [], none⟩
     (.error ⟨"boom", "st"⟩) 1 2 3 (by decide) (by decide)⟩

/-- C6: the fetch wrapper is transparent to its caller: on success it
returns the original response object itself (the clone, not the original,
was read for capture), and on rejection it emits one error event carrying
the error's message, stack and duration and re-throws the original error
value unchanged. -/
theorem fetch_transparent (id : String) (c : FetchCall) (t0 t1 t2 : Int) :
    (∀ r : Response, (fetchWrapped id c (.ok r) t0 t1 t2).2 = .ok r) ∧
    (∀ e : JSErr,
      (fetchWrapped id c (.error e) t0 t1 t2).2 = .error e ∧
      (fetchWrapped id c (.error e) t0 t1 t2).1 =
        [NetEvent.start id "fetch" c.resource (jsOrStr c.method "GET")
           c.headers (fetchRequestBody c) t0,
         NetEvent.errFetch id e.message e.stack (t1 - t0) t2]) :=
  ⟨fun _ => rfl, fun _ => ⟨rfl, rfl⟩⟩

/-- C10: the XHR end event's `ok` field is true exactly for statuses in
[200, 400) — redirect-range statuses are reported ok — while the fetch end
event's `ok` is the native response flag, true exactly for [200, 300); at
status 301 the XHR path reports `ok = true` and the fetch path
`ok = false`. -/
theorem xhr_ok_includes_redirects_fetch_not :
    (∀ (st : XhrState) (id : String) (started tD tS : Int),
       ((handleResponse st id started tD tS).okField = some true ↔
         (200 ≤ st.status ∧ st.status < 400))) ∧
    (∀ r : Response, (r.okFlag = true ↔ (200 ≤ r.status ∧ r.status < 300))) ∧
    (∀ (id : String) (c : FetchCall) (r : Response) (t0 t1 t2 : Int),
       ((fetchWrapped id c (.ok r) t0 t1 t2).1.filter NetEvent.isEnd).map
         NetEvent.okField = [some r.okFlag]) ∧
    ((handleResponse ⟨301, "Moved Permanently", "", none, .ok "", .vNull, ""⟩
        "x1" 0 0 0).okField = some true) ∧
    (((fetchWrapped "x1" ⟨"https://a/", none, [], none⟩
        (.ok ⟨301, "Moved Permanently", [], "", none, false⟩) 0 0 0).1.filter
          NetEvent.isEnd).map NetEvent.okField = [some false]) := by
  refine ⟨?_, ?_, ?_, ?_, ?_⟩
  · intro st id started tD tS
    simp [handleResponse, NetEvent.okField]
  · intro r
    simp [Response.okFlag]
  · intro id c r t0 t1 t2
    rfl
  · rfl
  · rfl

/-- C1 (code bug in the source): the wrapped `send` wires `handleResponse`
to both `load` and `loadend` and `handleError` to `error`/`abort`/
`timeout`, with no exactly-once gate.  A failed XHR — the browser fires
`error` and then always fires `loadend` — therefore emits TWO terminal
events for one correlation id: an error-phase event followed by an
end-phase event.  Evaluated at a concrete failing run. -/
theorem xhr_error_run_emits_two_terminals :
    (let evts := xhrSendEvents ⟨0, "", "", none, .ok "", .vNull, ""⟩ "req1"
        "https://api/x" "GET" [] .vUndefined 100
        [(.error, 105, 105), (.loadend, 106, 106)]
     evts.countP NetEvent.isStart = 1 ∧
     evts.countP NetEvent.isTerminal = 2 ∧
     evts.map NetEvent.isErr = [false, true, false] ∧
     evts.map NetEvent.isEnd = [false, false, true] ∧
     evts.map NetEvent.evId = ["req1", "req1", "req1"]) :=
  ⟨rfl, rfl, rfl, rfl, rfl⟩

/-- C7 counterexample: the nav payload's keys are `href` and `t`; no
`timestamp` key exists, so the claimed `{ href, timestamp }` payload shape
is wrong. -/
theorem nav_payload_keys_href_t :
    (emitNavPayload "https://example.test/page" 42).keys = ["href", "t"] ∧
    "timestamp" ∉ (emitNavPayload "https://example.test/page" 42).keys := by
  exact ⟨rfl, by decide⟩

/-- C7 amended: each wrapped history mutator delegates to the original
mutator first, preserves its return value and resulting page state, and
then emits exactly one nav event whose payload is `{ href, t }` with `href`
equal to the location's href after the mutation. -/
theorem history_wrappers_delegate_then_emit
    (orig : PageState → JSVal × PageState) (s : PageState) (now : Int) :
    (pushStateWrapped orig s now).1 = (orig s).1 ∧
    (pushStateWrapped orig s now).2.1 = (orig s).2 ∧
    (pushStateWrapped orig s now).2.2 =
      [emitNavPayload (orig s).2.href now] ∧
    ((pushStateWrapped orig s now).2.2.map JVal.keys) = [["href", "t"]] ∧
    (replaceStateWrapped orig s now).1 = (orig s).1 ∧
    (replaceStateWrapped orig s now).2.2 =
      [emitNavPayload (orig s).2.href now] :=
  ⟨rfl, rfl, rfl, rfl, rfl, rfl⟩

end RR
